import Mathlib

/-!
# Verification development for the `async-editor` crate

Shallow embedding of `src/lib.rs` (the `Editor` / `AsyncEditor` / `SharedStdout`
types) into Lean.

Modelling conventions, used throughout:

* UTF-8 strings are modelled as byte lists (`List Nat`); `'\n'` is the byte `10`
  and `'\t'` the byte `9`.  Rust byte-index operations (`drain`, slicing,
  `insert_str`, `len`, `split`, `join`) become `List.take`/`List.drop`/`++`/
  `List.length` on those lists.
* `u16`/`usize` arithmetic is modelled on `Nat`.  Rust's `saturating_sub` is
  exactly `Nat` subtraction; plain `-` on unsigned integers is also modelled by
  truncated `Nat` subtraction (the source would panic or wrap on underflow;
  every theorem below that depends on a subtraction carries hypotheses or uses
  concrete inputs for which no underflow occurs).
* `f32` literals are modelled by their exact rational values
  (`0.1f32 = 13421773/2^27`, `0.9f32 = 15099494/2^24`); `as i16` on a
  non-negative float is truncation, i.e. the floor on non-negative values.
  At every concrete input used below the rational computation and the `f32`
  computation give the same truncated integer.
* The grapheme/width library (`grapheme_utils`, external crate, treated by the
  spec as an oracle) is modelled by a `GraphemeOracle` parameter carrying the
  contract of spec section 4.1.  The `historybuffer` crate is likewise modelled
  from the spec (section 4.2).
* Terminal output is pure state: functions additionally return the scroll-up
  amount they emit, and playback paths return a trace of terminal commands.
-/

/-- Modelled from the spec: the grapheme/width oracle of section 4.1 (the external
`grapheme_utils` / `unicode_segmentation` crates).  `bnd s i` tells whether byte
index `i` is a grapheme-cluster boundary of `s` (boundaries lie in
`[0, s.length]` and include both ends); `w s` is the monospace display width of
`s` (`w` of the empty string is `0`). -/
structure GraphemeOracle where
  bnd : List Nat → Nat → Bool
  w : List Nat → Nat
  bnd_zero : ∀ s, bnd s 0 = true
  bnd_len : ∀ s, bnd s s.length = true
  bnd_le : ∀ s i, bnd s i = true → i ≤ s.length
  w_nil : w [] = 0

/-- Oracle instance for pure ASCII text: every byte is its own grapheme cluster
of width 1.  On ASCII input this agrees with the real segmentation/width
library, so concrete counterexamples below use ASCII bytes only. -/
def asciiOracle : GraphemeOracle where
  bnd := fun s i => decide (i ≤ s.length)
  w := fun s => s.length
  bnd_zero := by intro s; simp
  bnd_len := by intro s; simp
  bnd_le := by intro s i h; simpa using h
  w_nil := rfl

/-- Source `grapheme_idx_at_idx s i`: the largest grapheme boundary `≤ i`. -/
def graphemeIdxAt (O : GraphemeOracle) (s : List Nat) : Nat → Nat
  | 0 => 0
  | i + 1 => if O.bnd s (i + 1) then i + 1 else graphemeIdxAt O s i

/-- Helper for `nextGraphemeIdxFromIdx`: scan upward from `j` for a boundary,
with enough fuel to reach `s.length`; falls back to `s.length`. -/
def nextBndGo (O : GraphemeOracle) (s : List Nat) : Nat → Nat → Nat
  | 0, _ => s.length
  | fuel + 1, j => if O.bnd s j then j else nextBndGo O s fuel (j + 1)

/-- Source `next_grapheme_idx_from_idx s i`: the smallest boundary `> i`, or
`s.length` if none. -/
def nextGraphemeIdxFromIdx (O : GraphemeOracle) (s : List Nat) (i : Nat) : Nat :=
  nextBndGo O s (s.length - i) (i + 1)

/-- Source `prev_grapheme_idx_from_idx s i`: the largest boundary `< i`, or `0`
if none. -/
def prevGraphemeIdxFromIdx (O : GraphemeOracle) (s : List Nat) : Nat → Nat
  | 0 => 0
  | i + 1 => if O.bnd s i then i else prevGraphemeIdxFromIdx O s i

/-- Helper for `graphemeSegs`: walk the bytes of `s` (remaining part `l`,
current absolute index `i`, reversed current cluster `cur`), cutting a cluster
whenever the next index is a boundary.  Models the `grapheme_indices(true)`
iteration of the source. -/
def graphemeSegsGo (O : GraphemeOracle) (s : List Nat) : List Nat → Nat → List Nat → List (List Nat)
  | [], _, cur => if cur.isEmpty then [] else [cur.reverse]
  | b :: rest, i, cur =>
      if O.bnd s (i + 1) then (b :: cur).reverse :: graphemeSegsGo O s rest (i + 1) []
      else graphemeSegsGo O s rest (i + 1) (b :: cur)

/-- The grapheme clusters of `s`, in order (concatenating them gives back `s`). -/
def graphemeSegs (O : GraphemeOracle) (s : List Nat) : List (List Nat) :=
  graphemeSegsGo O s s 0 []

/-- Helper for `splitInclusive` (accumulator is the reversed current segment). -/
def splitInclusiveGo : List Nat → List Nat → List (List Nat)
  | cur, [] => if cur.isEmpty then [] else [cur.reverse]
  | cur, b :: rest =>
      if b = 10 then (b :: cur).reverse :: splitInclusiveGo [] rest
      else splitInclusiveGo (b :: cur) rest

/-- Source `buf.split_inclusive(|b| *b == b'\n')`: split after every newline
byte, keeping the newline; an empty buffer yields no segments. -/
def splitInclusive (buf : List Nat) : List (List Nat) :=
  splitInclusiveGo [] buf

/-- Helper for `splitOnNl` (accumulator is the reversed current piece). -/
def splitOnNlGo : List Nat → List Nat → List (List Nat)
  | cur, [] => [cur.reverse]
  | cur, b :: rest =>
      if b = 10 then cur.reverse :: splitOnNlGo [] rest
      else splitOnNlGo (b :: cur) rest

/-- Source `initial_content.split("\n")` (line 258): split on newline bytes,
separators removed; always yields at least one (possibly empty) piece. -/
def splitOnNl (s : List Nat) : List (List Nat) :=
  splitOnNlGo [] s

/-- Source `self.lines.join("\n")` (line 936): rejoin lines with newline bytes. -/
def joinNl : List (List Nat) → List Nat
  | [] => []
  | [x] => x
  | x :: y :: rest => x ++ 10 :: joinNl (y :: rest)

/-- Modelled from the spec: the History Buffer of section 4.2 (external
`historybuffer` crate): the currently retained bytes plus the total number of
bytes ever appended. -/
structure HistBuf where
  retained : List Nat
  lastIndex : Nat
deriving DecidableEq, Repr

/-- Modelled from the spec: `get_recent(n)` returns the last `min(n, retained)`
bytes in order. -/
def HistBuf.getRecent (hb : HistBuf) (n : Nat) : List Nat :=
  hb.retained.drop (hb.retained.length - n)

/-- The `Editor` struct (source lines 213-235), with the terminal handle and the
scratch buffer dropped (they carry no abstract state).  `lidx` is the cursor
byte index within the active line (the spec's `byteidx`). -/
structure EditorState where
  curx : Nat
  cury : Nat
  hb_active : Bool
  hb_start_index : Nat
  hb_end_index : Nat
  histbuf : HistBuf
  lidx : Nat
  lines : List (List Nat)
  lineidx : Nat
  lofs : Nat
  loose_cursor : Bool
  printlines : Nat
  printx : Nat
  printy : Nat
  scrollstart : Nat
  sizex : Nat
  sizey : Nat
  tabstop : Nat
deriving DecidableEq, Repr

/-- Source `self.lines[self.lineidx]` (out-of-range access would panic in Rust;
modelled with a default of `[]`). -/
def curLine (st : EditorState) : List Nat := st.lines.getD st.lineidx []

/-- Source `Editor::len` (lines 588-590): byte length of the active line. -/
def lineLen (st : EditorState) : Nat := (curLine st).length

/-- Exact rational value of the `f32` literal `0.1`. -/
def f32Tenth : ℚ := 13421773 / 134217728

/-- Exact rational value of the `f32` literal `0.9`. -/
def f32NineTenths : ℚ := 15099494 / 16777216

/-- Source `Editor::new` (lines 238-273).  `cury0` is the cursor row reported by
`position()` at construction time; `printHeight` is the `f32` argument modelled
as a rational. -/
def mkEditor (initial : List Nat) (printHeight : ℚ) (tabstop : Nat)
    (sizex sizey cury0 : Nat) : EditorState :=
  let newprintlines : Nat :=
    (⌊(sizey : ℚ) * (min (max printHeight f32Tenth) f32NineTenths)⌋).toNat
  { curx := 0
    cury := newprintlines + 2
    hb_active := false
    hb_start_index := 0
    hb_end_index := 0
    histbuf := ⟨[], 0⟩
    lidx := 0
    lines := splitOnNl initial
    lineidx := 0
    lofs := 0
    loose_cursor := false
    printlines := newprintlines
    printx := 0
    printy := cury0 + 1
    scrollstart := 0
    sizex := sizex
    sizey := sizey
    tabstop := tabstop }

/-- Source `Editor::text` (lines 935-937). -/
def editorText (st : EditorState) : List Nat := joinNl st.lines

/-! ## The write sink (`SharedStdout`, source lines 1086-1116) -/

/-- Outcome of `thingbuf`'s `try_send_ref` as observed by `SharedStdout::write`
(the channel is external; the spec treats it as a bounded MPSC with try-send). -/
inductive TrySendOutcome
  | ok
  | full
  | closed
deriving DecidableEq, Repr

/-- Result value of `SharedStdout::write`. -/
inductive WriteOutcome
  | success (n : Nat)
  | wouldBlock
  | otherErr
deriving DecidableEq, Repr

/-- Source `SharedStdout::write` (lines 1094-1112): append `bytes` to the
staging buffer; then, depending on the channel outcome, either swap the staging
buffer into the reserved (recycled, empty) slot and clear staging, or return an
error.  Returns (result, new staging buffer, message delivered to the channel
if any). -/
def sharedStdoutWrite (staging : List Nat) (bytes : List Nat) (r : TrySendOutcome) :
    WriteOutcome × List Nat × Option (List Nat) :=
  let buf1 := staging ++ bytes
  match r with
  | .ok => (.success bytes.length, [], some buf1)
  | .full => (.wouldBlock, buf1, none)
  | .closed => (.otherErr, buf1, none)

/-! ## Tab-aware width computation (source lines 286-304) -/

/-- Source `&self.lines[self.lineidx][self.lofs..self.lidx]`: the byte slice
between two indices (Rust would panic on a non-char-boundary; all uses below
are at grapheme boundaries or on ASCII input). -/
def sliceBytes (s : List Nat) (a b : Nat) : List Nat := (s.take b).drop a

/-- Source loop of `grapheme_width_lofs_to_lidx` (lines 294-302): accumulate
grapheme widths, expanding a tab at accumulated width `width` to
`ts - ((width + ofs) % ts)` cells. -/
def tabWalkFrom (O : GraphemeOracle) (ts ofs : Nat) : List (List Nat) → Nat → Nat
  | [], width => width
  | g :: gs, width =>
      tabWalkFrom O ts ofs gs (width + (if g = [9] then ts - ((width + ofs) % ts) else O.w g))

/-- Source `Editor::grapheme_width_lofs_to_lidx` (lines 286-304): display width
of `line[lofs..lidx]`; if the slice holds a tab, tabs are expanded relative to
`ofs = width(line[..lofs]) % tabstop`. -/
def graphemeWidthLofsToLidx (O : GraphemeOracle) (ts : Nat) (line : List Nat)
    (lofs lidx : Nat) : Nat :=
  if (sliceBytes line lofs lidx).contains 9 then
    tabWalkFrom O ts (O.w (line.take lofs) % ts) (graphemeSegs O (sliceBytes line lofs lidx)) 0
  else O.w (sliceBytes line lofs lidx)

/-! Helper facts used only to justify termination of the `setpos` viewport loop
(the source loop at lines 923-932 terminates because a slice of positive width
is nonempty and `next_grapheme_idx_from_idx` strictly advances). -/

theorem sliceBytes_eq_nil {line : List Nat} {lofs lidx : Nat}
    (h : lidx ≤ lofs ∨ line.length ≤ lofs) : sliceBytes line lofs lidx = [] := by
  apply List.drop_eq_nil_of_le
  rw [List.length_take]
  rcases h with h | h <;> omega

theorem graphemeWidth_pos_lt (O : GraphemeOracle) (ts : Nat) (line : List Nat)
    (lofs lidx : Nat) (h : graphemeWidthLofsToLidx O ts line lofs lidx ≠ 0) :
    lofs < lidx ∧ lofs < line.length := by
  by_contra hc
  apply h
  have hnil : sliceBytes line lofs lidx = [] := by
    apply sliceBytes_eq_nil
    omega
  rw [graphemeWidthLofsToLidx, hnil]
  simp [O.w_nil]

theorem nextBndGo_ge (O : GraphemeOracle) (s : List Nat) :
    ∀ fuel j, min j s.length ≤ nextBndGo O s fuel j := by
  intro fuel
  induction fuel with
  | zero => intro j; rw [nextBndGo]; omega
  | succ n ih =>
      intro j
      rw [nextBndGo]
      split
      · omega
      · have := ih (j + 1)
        omega

theorem nextGraphemeIdx_gt (O : GraphemeOracle) (s : List Nat) (i : Nat)
    (h : i < s.length) : i < nextGraphemeIdxFromIdx O s i := by
  rw [nextGraphemeIdxFromIdx]
  have := nextBndGo_ge O s (s.length - i) (i + 1)
  omega

/-- Source loop in `Editor::setpos` (lines 923-932): while the width from
`lofs` to `lidx` exceeds `sizex - 1`, advance `lofs` by one grapheme; returns
the final `lofs`. -/
def setposLoop (O : GraphemeOracle) (ts sizex : Nat) (line : List Nat) (lidx : Nat)
    (lofs : Nat) : Nat :=
  if h : sizex - 1 < graphemeWidthLofsToLidx O ts line lofs lidx then
    setposLoop O ts sizex line lidx (nextGraphemeIdxFromIdx O line lofs)
  else lofs
termination_by lidx - lofs
decreasing_by
  have h2 := graphemeWidth_pos_lt O ts line lofs lidx (by omega)
  have h3 := nextGraphemeIdx_gt O line lofs h2.2
  omega

/-- Source `Editor::setpos` (lines 898-933): snap `lidx` to a grapheme
boundary, resolve the `loose_cursor` bias on `lofs`, advance `lofs` until the
cursor is on screen, and set `curx` to the final width. -/
def setpos (O : GraphemeOracle) (st : EditorState) : EditorState :=
  let lidx1 := graphemeIdxAt O (curLine st) st.lidx
  let lofs1 :=
    if st.loose_cursor then
      if lidx1 < st.lofs + st.sizey * 4 + 15 then 0 else graphemeIdxAt O (curLine st) st.lofs
    else st.lofs
  let lofs2 := if lidx1 < lofs1 then 0 else lofs1
  let lofs3 := setposLoop O st.tabstop st.sizex (curLine st) lidx1 lofs2
  { st with lidx := lidx1, lofs := lofs3, loose_cursor := false,
            curx := graphemeWidthLofsToLidx O st.tabstop (curLine st) lofs3 lidx1 }

/-! ## Cursor movement (source lines 601-684) -/

/-- Source `Editor::move_down` (lines 601-653).  `u16`/`usize` subtractions are
modelled by truncated `Nat` subtraction (see the header). -/
def moveDown (O : GraphemeOracle) (st0 : EditorState) (num : Nat) (mtb : Bool) : EditorState :=
  let st := { st0 with loose_cursor := true }
  if st.lineidx + 1 = st.lines.length ∧ st.scrollstart + 1 = st.lines.length then
    setpos O { st with lidx := lineLen st }
  else
    let virtidx :=
      if st.scrollstart ≤ (st.sizey + 2) - (st.cury + st.printlines) then
        st.cury - st.printlines - 2
      else st.scrollstart + (st.sizey - st.printlines) - 3
    let cury1 := st.cury + num
    let lineidx1 := min (st.lineidx + num) (st.lines.length - 1)
    let scrollstart1 :=
      if st.sizey - 1 < cury1 ∨ lineidx1 + 1 = st.lines.length then
        if 10 < num then min (st.scrollstart + num) lineidx1
        else min ((virtidx + num + st.printlines + 3) - st.sizey) lineidx1
      else st.scrollstart
    let cury2 := min (min cury1 ((lineidx1 - scrollstart1) + st.printlines + 2)) (st.sizey - 1)
    let st1 := { st with cury := cury2, lineidx := lineidx1, scrollstart := scrollstart1 }
    if mtb then { st1 with lidx := 0, lofs := 0, curx := 0 }
    else setpos O st1

/-- Source `Editor::move_up` (lines 662-684). -/
def moveUp (O : GraphemeOracle) (st0 : EditorState) (num : Nat) (mte : Bool) : EditorState :=
  let st := { st0 with loose_cursor := true }
  if st.lineidx = 0 ∧ st.scrollstart = 0 then
    { st with lofs := 0, lidx := 0, curx := 0 }
  else
    let lineidx1 := st.lineidx - num
    let scrollstart1 :=
      if st.cury = st.printlines + 2 ∨ lineidx1 < st.scrollstart then st.scrollstart - num
      else st.scrollstart
    let cury1 := (lineidx1 - scrollstart1) + st.printlines + 2
    let st1 := { st with lineidx := lineidx1, scrollstart := scrollstart1, cury := cury1 }
    let st2 := if mte then { st1 with lidx := lineLen st1 } else st1
    setpos O st2

/-! ## Editing handlers (source `handle_event`, lines 306-571) -/

/-- Rust `Vec::insert(i, a)`: insert before position `i`, shifting the rest. -/
def listInsertAt {α : Type} (i : Nat) (a : α) (l : List α) : List α :=
  l.take i ++ a :: l.drop i

/-- Rust `Vec::remove(i)`: remove the element at position `i`. -/
def listRemoveAt {α : Type} (i : Nat) (l : List α) : List α :=
  l.take i ++ l.drop (i + 1)

/-- Source Ctrl-u handler (lines 355-358): `self.lines[self.lineidx].drain(0..self.lidx)`
followed by a redraw.  Note that the source does not touch `lidx`. -/
def ctrlUKey (st : EditorState) : EditorState :=
  { st with lines := st.lines.set st.lineidx ((curLine st).drop st.lidx) }

/-- Source Enter handler (lines 492-503): clamp `lidx`, insert the tail of the
current line as a new line below, truncate the current line, then
`move_down(1, true)`. -/
def enterKey (O : GraphemeOracle) (st0 : EditorState) : EditorState :=
  let st := if lineLen st0 < st0.lidx then { st0 with lidx := lineLen st0 } else st0
  let lines1 := listInsertAt (st.lineidx + 1) ((curLine st).drop st.lidx) st.lines
  let lines2 := lines1.set st.lineidx ((lines1.getD st.lineidx []).take st.lidx)
  moveDown O { st with lines := lines2 } 1 true

/-- Source Backspace handler (lines 437-462).  At the start of a line (and not
the first line): join the current line onto the previous one, remove it, and
move up; otherwise delete the grapheme ending at `lidx`. -/
def backspaceKey (O : GraphemeOracle) (st0 : EditorState) : EditorState :=
  if st0.lidx = 0 then
    if st0.lineidx = 0 then st0
    else
      let prevLen := (st0.lines.getD (st0.lineidx - 1) []).length
      let s := st0.lines.getD st0.lineidx []
      let lines1 := st0.lines.set (st0.lineidx - 1) ((st0.lines.getD (st0.lineidx - 1) []) ++ s)
      let lines2 := listRemoveAt st0.lineidx lines1
      let st1 := { st0 with lidx := prevLen, lines := lines2 }
      setpos O (moveUp O st1 1 false)
  else
    let st := if lineLen st0 < st0.lidx then { st0 with lidx := lineLen st0, lofs := 0 } else st0
    let start := prevGraphemeIdxFromIdx O (curLine st) st.lidx
    let gwid := graphemeWidthLofsToLidx O st.tabstop (curLine st) st.lofs st.lidx
    let line1 := (curLine st).take start ++ (curLine st).drop st.lidx
    let st1 := { st with lines := st.lines.set st.lineidx line1, lidx := start }
    let gwid2 := gwid - graphemeWidthLofsToLidx O st1.tabstop (curLine st1) st1.lofs st1.lidx
    { st1 with curx := st1.curx - gwid2 }

/-! ## Print pane output (source lines 939-971) -/

/-- Source wrap loop in `writebuf` (lines 954-957): `while x > sizex { x -= sizex;
printy += 1 }`.  Returns the final `x` and the number of wraps.  (For
`sizex = 0` the source loop would not terminate; the model returns `x` there —
all states of interest have `sizex > 0`.) -/
def wrapAdvance (sizex : Nat) (x : Nat) : Nat × Nat :=
  if h : sizex < x ∧ 0 < sizex then
    let p := wrapAdvance sizex (x - sizex)
    (p.1, p.2 + 1)
  else (x, 0)
termination_by x
decreasing_by omega

/-- One `split_inclusive` segment of `writebuf` (lines 945-960): a segment
ending in a newline resets `printx` and advances `printy`; otherwise `printx`
advances by the byte length, wrapping on `sizex`. -/
def writebufSegStep (sizex : Nat) (p : Nat × Nat) (seg : List Nat) : Nat × Nat :=
  if seg.getLast? = some 10 then (0, p.2 + 1)
  else
    let w := wrapAdvance sizex (p.1 + seg.length)
    (w.1, p.2 + w.2)

/-- The print cursor `(printx, printy)` after `writebuf` has emitted `buf`,
before the final clamping (source lines 945-960). -/
def writebufRaw (sizex px py : Nat) (buf : List Nat) : Nat × Nat :=
  (splitInclusive buf).foldl (writebufSegStep sizex) (px, py)

/-- Source `Editor::writebuf` (lines 939-971): emit `buf`, then clamp `printy`
to `sizey` and scroll up by the excess over `printlines` if any.  Returns the
new state and the emitted scroll-up amount (`0` when no scroll was emitted). -/
def writebuf (st : EditorState) (buf : List Nat) : EditorState × Nat :=
  let p := writebufRaw st.sizex st.printx st.printy buf
  let py1 := min p.2 st.sizey
  if st.printlines < py1 then
    ({ st with printx := p.1, printy := st.printlines }, py1 - st.printlines)
  else
    ({ st with printx := p.1, printy := py1 }, 0)

/-- Terminal control commands emitted by the playback paths. -/
inductive TermCmd
  | moveTo (x y : Nat)
  | clearAll
  | clearDown
  | scrollUp (n : Nat)
  | output (bs : List Nat)
deriving DecidableEq, Repr

/-- Source `Editor::writehistory` with `WriteHistoryType::Quit` (lines 973-983
and 1052-1058): move to the origin, clear the whole screen, reset the print
cursor, fetch the live tail `get_recent(printlines * sizex)` and write it via
`writebuf`; finally clear `hb_active`.  Returns the state, the scroll-up amount
of the inner `writebuf`, and the trace of terminal commands. -/
def writehistoryQuit (st : EditorState) : EditorState × Nat × List TermCmd :=
  let st1 := { st with printx := 0, printy := 0 }
  let page := st.histbuf.getRecent (st.printlines * st.sizex)
  let r := writebuf st1 page
  ({ r.1 with hb_active := false }, r.2,
    [TermCmd.moveTo 0 0, TermCmd.clearAll, TermCmd.output page] ++
      (if r.2 ≠ 0 then [TermCmd.scrollUp r.2] else []))

/-- Source Esc handler (lines 488-491): `writehistory(Quit)` (unconditionally),
then `hb_active = false`. -/
def escKey (st : EditorState) : EditorState × Nat × List TermCmd :=
  let r := writehistoryQuit st
  ({ r.1 with hb_active := false }, r.2.1, r.2.2)

/-! ## Split resizing (source lines 549-560 and 877-895) -/

/-- Source `Editor::resize_split` (lines 877-895): clamp `printlines + delta`
to `[sizey >> 3, sizey - 8]`, shift `cury` by the achieved delta (at least
`printlines + 2`), walk `cury`/`lineidx` back while `cury ≥ sizey`, then
`setpos` and an empty `writebuf`.  (The `i16`/`u16` casts are faithful as long
as `sizey ≥ 16`, which all inputs below satisfy.) -/
def resizeSplit (O : GraphemeOracle) (st : EditorState) (delta : Int) : EditorState × Nat :=
  let pre : Int := st.printlines
  let printlines1 : Int := min (max (pre + delta) ((st.sizey : Int) / 8)) ((st.sizey : Int) - 8)
  let pl : Nat := printlines1.toNat
  let newDelta : Int := (pl : Int) - pre
  let cury1 : Nat := (max ((st.cury : Int) + newDelta) ((pl : Int) + 2)).toNat
  let drops : Nat := (cury1 + 1) - st.sizey
  let st1 := { st with printlines := pl, cury := min cury1 (st.sizey - 1),
                       lineidx := st.lineidx - drops }
  writebuf (setpos O st1) []

/-- Source `Event::Resize(x, y)` arm of `handle_event` (lines 549-560): compute
the clamped current proportion (as written: `.max(0.9).min(0.1)`), derive the
`printlines` delta for the new height, store the new size and call
`resize_split`.  The `f32` literals are their exact rational values. -/
def resizeEvent (O : GraphemeOracle) (st : EditorState) (x y : Nat) : EditorState × Nat :=
  let curp : ℚ := min (max ((st.printlines : ℚ) / (st.sizey : ℚ)) f32NineTenths) f32Tenth
  let delta : Int := ⌊curp * (y : ℚ)⌋ - (st.printlines : Int)
  let st1 := { st with sizex := x, sizey := y }
  let r := resizeSplit O st1 delta
  ({ r.1 with sizey := y }, r.2)

/-- Definition following the spec's words for claim C3: the print pane keeps
its previous fraction `printlines / sizey` of the screen, applied to the new
height `y` and clamped to `[y >> 3, y - 8]`. -/
def claimedResizePrintlines (st : EditorState) (y : Nat) : Nat :=
  (min (max (⌊((st.printlines : ℚ) / (st.sizey : ℚ)) * (y : ℚ)⌋)
      ((y : Int) / 8)) ((y : Int) - 8)).toNat

/-! ## Rendering of the active line (source `redrawline`, lines 822-875) -/

/-- UTF-8 bytes of the tab-expansion arrow glyph. -/
def arrowBytes : List Nat := [226, 134, 146]

/-- Source walk of `redrawline` (lines 851-868): expand each grapheme (a tab at
accumulated width `width` becomes `ts - (width % ts)` arrow glyphs — note: no
prefix offset), stopping before a grapheme that would pass `maxw + 1` cells.
Returns the rendered bytes, the list of consumed cell widths, and the final
accumulated width. -/
def redrawLoop (O : GraphemeOracle) (ts maxw : Nat) : List (List Nat) → Nat → List Nat × List Nat × Nat
  | [], width => ([], [], width)
  | g :: gs, width =>
      let news := if g = [9] then (List.replicate (ts - (width % ts)) arrowBytes).flatten else g
      let cw := if g = [9] then ts - (width % ts) else O.w g
      if maxw + 1 < width + cw then ([], [], width)
      else
        let r := redrawLoop O ts maxw gs (width + cw)
        (news ++ r.1, cw :: r.2.1, r.2.2)

/-- Source `Editor::redrawline` (lines 822-875), rendered bytes only: render
the active line from the grapheme boundary at `lofs`, verbatim when it fits
without tabs, otherwise via the expanding walk with `maxw = sizex - 2`. -/
def redrawlineRender (O : GraphemeOracle) (st : EditorState) : List Nat :=
  let start := if lineLen st < st.lofs then 0 else graphemeIdxAt O (curLine st) st.lofs
  let line := (curLine st).drop start
  let maxw := st.sizex - 2
  if O.w line ≤ maxw ∧ line.contains 9 = false then line
  else (redrawLoop O st.tabstop maxw (graphemeSegs O line) 0).1

/-- Definition following the spec's words (section 4.4, claim C8): the
per-grapheme cell widths when walking graphemes `gs` against prefix offset
`base`, with the running visual offset starting at `w`: a tab at offset `w`
expands to `tabstop - ((w + base) % tabstop)` cells, anything else to its
oracle width. -/
def specTabWalkFrom (O : GraphemeOracle) (ts base : Nat) : List (List Nat) → Nat → List Nat
  | [], _ => []
  | g :: gs, w =>
      (if g = [9] then ts - ((w + base) % ts) else O.w g) ::
        specTabWalkFrom O ts base gs (w + (if g = [9] then ts - ((w + base) % ts) else O.w g))

/-- Concrete editor states used in counterexamples: 80x24 screen, 12 print
rows, tabstop 4, empty history, cursor at the top of the edit pane. -/
def baseState : EditorState where
  curx := 0
  cury := 14
  hb_active := false
  hb_start_index := 0
  hb_end_index := 0
  histbuf := ⟨[], 0⟩
  lidx := 0
  lines := [[]]
  lineidx := 0
  lofs := 0
  loose_cursor := false
  printlines := 12
  printx := 0
  printy := 0
  scrollstart := 0
  sizex := 80
  sizey := 24
  tabstop := 4

/-! ## General helper lemmas -/

theorem graphemeIdxAt_of_bnd (O : GraphemeOracle) (s : List Nat) (i : Nat)
    (h : O.bnd s i = true) : graphemeIdxAt O s i = i := by
  cases i with
  | zero => rfl
  | succ n => rw [graphemeIdxAt, if_pos h]

theorem getD_mid {α : Type} (L : List α) (x : α) (R : List α) (d : α) :
    (L ++ x :: R).getD L.length d = x := by
  induction L with
  | nil => rfl
  | cons a l ih => simpa using ih

theorem getD_mid2 {α : Type} (L : List α) (x y : α) (R : List α) (d : α) :
    (L ++ x :: y :: R).getD (L.length + 1) d = y := by
  have h := getD_mid (L ++ [x]) y R d
  simpa using h

theorem set_mid {α : Type} (L : List α) (x y : α) (R : List α) :
    (L ++ x :: R).set L.length y = L ++ y :: R := by
  induction L with
  | nil => rfl
  | cons a l ih => simpa using ih

theorem insertAt_mid {α : Type} (L : List α) (x : α) (R : List α) (t : α) :
    listInsertAt (L.length + 1) t (L ++ x :: R) = L ++ x :: t :: R := by
  induction L with
  | nil => simp [listInsertAt]
  | cons a l ih =>
      simp only [listInsertAt, List.length_cons, List.cons_append, List.take_succ_cons,
        List.drop_succ_cons] at ih ⊢
      rw [ih]

theorem removeAt_mid {α : Type} (L : List α) (x t : α) (R : List α) :
    listRemoveAt (L.length + 1) (L ++ x :: t :: R) = L ++ x :: R := by
  induction L with
  | nil => simp [listRemoveAt]
  | cons a l ih =>
      simp only [listRemoveAt, List.length_cons, List.cons_append, List.take_succ_cons,
        List.drop_succ_cons] at ih ⊢
      rw [ih]

theorem setpos_lines (O : GraphemeOracle) (st : EditorState) :
    (setpos O st).lines = st.lines := rfl

theorem setpos_lineidx (O : GraphemeOracle) (st : EditorState) :
    (setpos O st).lineidx = st.lineidx := rfl

theorem setpos_lidx (O : GraphemeOracle) (st : EditorState) :
    (setpos O st).lidx = graphemeIdxAt O (curLine st) st.lidx := rfl

theorem setpos_printlines (O : GraphemeOracle) (st : EditorState) :
    (setpos O st).printlines = st.printlines := rfl

theorem writebuf_printlines (st : EditorState) (buf : List Nat) :
    (writebuf st buf).1.printlines = st.printlines := by
  simp only [writebuf]
  split <;> rfl

/-! ## Round-trip of construction and `text()` (claim C5) -/

theorem splitOnNlGo_ne_nil (cur l : List Nat) : splitOnNlGo cur l ≠ [] := by
  induction l generalizing cur with
  | nil => simp [splitOnNlGo]
  | cons b rest ih =>
      rw [splitOnNlGo]
      split
      · simp
      · exact ih _

theorem joinNl_splitOnNlGo (l : List Nat) :
    ∀ cur, joinNl (splitOnNlGo cur l) = cur.reverse ++ l := by
  induction l with
  | nil => intro cur; simp [splitOnNlGo, joinNl]
  | cons b rest ih =>
      intro cur
      rw [splitOnNlGo]
      by_cases hb : b = 10
      · rw [if_pos hb]
        obtain ⟨y, ys, hy⟩ : ∃ y ys, splitOnNlGo [] rest = y :: ys := by
          cases hsp : splitOnNlGo [] rest with
          | nil => exact absurd hsp (splitOnNlGo_ne_nil [] rest)
          | cons y ys => exact ⟨y, ys, rfl⟩
        rw [hy, joinNl, ← hy, ih []]
        simp [hb]
      · rw [if_neg hb, ih (b :: cur)]
        simp

/-- C5: for every initial content `c` (and any other constructor arguments),
constructing the editor and reading `text()` with no edits in between returns
exactly `c`: splitting on newlines and rejoining with newlines is the
identity. -/
theorem text_roundtrip (c : List Nat) (printHeight : ℚ)
    (tabstop sizex sizey cury0 : Nat) :
    editorText (mkEditor c printHeight tabstop sizex sizey cury0) = c := by
  have h : editorText (mkEditor c printHeight tabstop sizex sizey cury0)
      = joinNl (splitOnNlGo [] c) := rfl
  rw [h, joinNl_splitOnNlGo c []]
  rfl

/-! ## The write sink (claims C7 and C10) -/

/-- C7: `SharedStdout::write` returns a would-block error exactly when the
channel is full, a generic failure exactly when the channel is closed, and on
success delivers the whole staging buffer (prior residue plus the new bytes)
and returns the length of the caller's bytes. -/
theorem shared_write_contract (staging bytes : List Nat) (r : TrySendOutcome) :
    ((sharedStdoutWrite staging bytes r).1 = WriteOutcome.wouldBlock ↔ r = TrySendOutcome.full) ∧
    ((sharedStdoutWrite staging bytes r).1 = WriteOutcome.otherErr ↔ r = TrySendOutcome.closed) ∧
    sharedStdoutWrite staging bytes TrySendOutcome.ok
      = (WriteOutcome.success bytes.length, [], some (staging ++ bytes)) := by
  cases r <;> simp [sharedStdoutWrite]

/-- C10: the staging buffer is extended before the send is attempted, so after
a would-block failure the bytes stay staged (and nothing was delivered), the
next successful write delivers them prepended to that call's bytes, and a
caller that retries the same bytes delivers them twice. -/
theorem restage_double_delivery (staging bytes bytes2 : List Nat) :
    (sharedStdoutWrite staging bytes TrySendOutcome.full).2.1 = staging ++ bytes ∧
    (sharedStdoutWrite staging bytes TrySendOutcome.full).2.2 = none ∧
    (sharedStdoutWrite ((sharedStdoutWrite staging bytes TrySendOutcome.full).2.1)
        bytes2 TrySendOutcome.ok).2.2 = some (staging ++ bytes ++ bytes2) ∧
    (sharedStdoutWrite ((sharedStdoutWrite staging bytes TrySendOutcome.full).2.1)
        bytes TrySendOutcome.ok).2.2 = some ((staging ++ bytes) ++ bytes) := by
  simp [sharedStdoutWrite]

/-! ## The Ctrl-u handler (claims C1 and C2) -/

/-- C1: the Ctrl-u (kill-to-start) handler on the line `"abc"` with the cursor
at byte 2 does delete `line[0..2]`, but leaves `byteidx` at 2 instead of
resetting it to 0 — contradicting the claim's `byteidx ← 0` (the source never
writes `self.lidx` in this handler). -/
theorem ctrlU_leaves_byteidx_bug :
    (ctrlUKey { baseState with lines := [[97, 98, 99]], lidx := 2 }).lines = [[99]] ∧
    (ctrlUKey { baseState with lines := [[97, 98, 99]], lidx := 2 }).lidx = 2 ∧
    (ctrlUKey { baseState with lines := [[97, 98, 99]], lidx := 2 }).lidx ≠ 0 := by
  refine ⟨by decide, by decide, by decide⟩

/-- C2: after the Ctrl-u handler on the line `"hello"` with the cursor at byte
3, the cursor byte index is 3 while the active line has shrunk to `"lo"`
(length 2), so `lidx` is neither a grapheme boundary of the line (for any
oracle, since boundaries never exceed the length) nor equal to its length: the
boundary invariant does not survive this handler. -/
theorem boundary_invariant_bug :
    (ctrlUKey { baseState with lines := [[104, 101, 108, 108, 111]], lidx := 3 }).lidx = 3 ∧
    ((ctrlUKey { baseState with lines := [[104, 101, 108, 108, 111]], lidx := 3 }).lines.getD
        (ctrlUKey { baseState with lines := [[104, 101, 108, 108, 111]], lidx := 3 }).lineidx [])
      = [108, 111] ∧
    (ctrlUKey { baseState with lines := [[104, 101, 108, 108, 111]], lidx := 3 }).lidx ≠ 2 ∧
    (∀ O : GraphemeOracle,
      O.bnd ((ctrlUKey { baseState with lines := [[104, 101, 108, 108, 111]], lidx := 3 }).lines.getD
          (ctrlUKey { baseState with lines := [[104, 101, 108, 108, 111]], lidx := 3 }).lineidx [])
        (ctrlUKey { baseState with lines := [[104, 101, 108, 108, 111]], lidx := 3 }).lidx = false) := by
  refine ⟨by decide, by decide, by decide, ?_⟩
  intro O
  have h1 : (ctrlUKey { baseState with lines := [[104, 101, 108, 108, 111]], lidx := 3 }).lines.getD
      (ctrlUKey { baseState with lines := [[104, 101, 108, 108, 111]], lidx := 3 }).lineidx []
      = [108, 111] := by decide
  have h2 : (ctrlUKey { baseState with lines := [[104, 101, 108, 108, 111]], lidx := 3 }).lidx = 3 := by
    decide
  rw [h1, h2]
  by_contra hb
  rw [Bool.not_eq_false] at hb
  have h3 := O.bnd_le _ _ hb
  simp at h3

/-! ## `writebuf` clamping (claim C4) -/

/-- C4 counterexample: with `printlines = 2` and `printy = 1`, writing the two
bytes `"a\n"` leaves `printy = 2`, which exceeds `printlines - 1 = 1`, and no
scroll-up is emitted — the claim's threshold `printlines - 1` is wrong. -/
theorem writebuf_clamp_cex :
    (writebuf { baseState with printlines := 2, printy := 1, sizex := 10 } [97, 10]).1.printy = 2 ∧
    (writebuf { baseState with printlines := 2, printy := 1, sizex := 10 } [97, 10]).2 = 0 ∧
    ({ baseState with printlines := 2, printy := 1, sizex := 10 } : EditorState).printlines - 1
      < (writebuf { baseState with printlines := 2, printy := 1, sizex := 10 } [97, 10]).1.printy := by
  refine ⟨by decide, by decide, by decide⟩

/-- C4 amended: `writebuf` first caps the written-to row at `sizey`; a
scroll-up is emitted exactly for the excess of that capped row over
`printlines` (not `printlines - 1`), and afterwards `printy` lies in
`[0, printlines]` (it can equal `printlines`). -/
theorem writebuf_clamp_amended (st : EditorState) (buf : List Nat) :
    (writebuf st buf).1.printy ≤ st.printlines ∧
    (writebuf st buf).1.printy
      = min (min (writebufRaw st.sizex st.printx st.printy buf).2 st.sizey) st.printlines ∧
    (writebuf st buf).2
      = min (writebufRaw st.sizex st.printx st.printy buf).2 st.sizey - st.printlines ∧
    (writebuf st buf).1.printx = (writebufRaw st.sizex st.printx st.printy buf).1 := by
  simp only [writebuf]
  split
  · refine ⟨?_, ?_, ?_, ?_⟩ <;> simp <;> omega
  · refine ⟨?_, ?_, ?_, ?_⟩ <;> simp <;> omega

/-! ## Terminal resize (claim C3) -/

theorem resizeSplit_printlines (O : GraphemeOracle) (st : EditorState) (delta : Int) :
    (resizeSplit O st delta).1.printlines
      = (min (max ((st.printlines : Int) + delta) ((st.sizey : Int) / 8))
          ((st.sizey : Int) - 8)).toNat := by
  simp only [resizeSplit, writebuf_printlines, setpos_printlines]

/-- C3: the Resize handler clamps the current proportion with
`.max(0.9).min(0.1)` — the clamp arguments are swapped, so the proportion used
is the constant `0.1` whatever the previous split was.  Concretely, from
`printlines = 12, sizey = 24` (proportion 1/2) a resize to 80x40 yields
`printlines = 5` (the clamped tenth of 40), while the claim's
proportion-preserving recomputation would give 20. -/
theorem resize_proportion_bug :
    (resizeEvent asciiOracle baseState 80 40).1.printlines = 5 ∧
    claimedResizePrintlines baseState 40 = 20 ∧
    (5 : Nat) ≠ 20 := by
  refine ⟨?_, ?_, by decide⟩
  · have h : (resizeEvent asciiOracle baseState 80 40).1.printlines
        = (resizeSplit asciiOracle { baseState with sizex := 80, sizey := 40 }
            (⌊(min (max ((baseState.printlines : ℚ) / (baseState.sizey : ℚ)) f32NineTenths)
                f32Tenth) * (40 : ℚ)⌋ - (baseState.printlines : Int))).1.printlines := rfl
    rw [h, resizeSplit_printlines]
    norm_num [baseState, f32Tenth, f32NineTenths]
    omega
  · norm_num [claimedResizePrintlines, baseState]
    omega

/-! ## Esc / scrollback exit (claim C9) -/

theorem writebuf_eq (st : EditorState) (buf : List Nat) :
    writebuf st buf
      = ({ st with printx := (writebufRaw st.sizex st.printx st.printy buf).1,
                   printy := min (min (writebufRaw st.sizex st.printx st.printy buf).2 st.sizey)
                     st.printlines },
         min (writebufRaw st.sizex st.printx st.printy buf).2 st.sizey - st.printlines) := by
  simp only [writebuf]
  split
  · next h =>
      rw [Nat.min_eq_right h.le]
  · next h =>
      rw [Nat.min_eq_left (Nat.le_of_not_lt h), Nat.sub_eq_zero_of_le (Nat.le_of_not_lt h)]

/-- C9: the Esc handler does not test `hb_active`; even when scrollback is
already inactive it behaves exactly like a scrollback exit: same result as
from the corresponding active state, the print cursor is reset to the origin
and then advanced by a `writebuf` of the live tail
`get_recent(printlines * sizex)`, a full-screen clear is emitted, and
`hb_active` ends up false. -/
theorem esc_exits_scrollback (st : EditorState) (h : st.hb_active = false) :
    escKey st = escKey { st with hb_active := true } ∧
    (escKey st).1 = { (writebuf { st with printx := 0, printy := 0 }
        (st.histbuf.getRecent (st.printlines * st.sizex))).1 with hb_active := false } ∧
    TermCmd.clearAll ∈ (escKey st).2.2 ∧
    (escKey st).1.hb_active = false := by
  refine ⟨?_, ?_, ?_, rfl⟩
  · simp [escKey, writehistoryQuit, writebuf_eq]
  · simp [escKey, writehistoryQuit, writebuf_eq]
  · simp [escKey, writehistoryQuit]

/-- Witness for `esc_exits_scrollback` at a concrete inactive state. -/
theorem esc_exits_scrollback_witness :
    (baseState.hb_active = false) ∧
    (escKey baseState = escKey { baseState with hb_active := true } ∧
     (escKey baseState).1 = { (writebuf { baseState with printx := 0, printy := 0 }
         (baseState.histbuf.getRecent (baseState.printlines * baseState.sizex))).1 with
           hb_active := false } ∧
     TermCmd.clearAll ∈ (escKey baseState).2.2 ∧
     (escKey baseState).1.hb_active = false) :=
  ⟨by decide, esc_exits_scrollback baseState (by decide)⟩

/-! ## Tab expansion bases (claim C8) -/

theorem tabWalkFrom_eq_sum (O : GraphemeOracle) (ts ofs : Nat) (gs : List (List Nat)) :
    ∀ w, tabWalkFrom O ts ofs gs w = w + (specTabWalkFrom O ts ofs gs w).sum := by
  induction gs with
  | nil => intro w; simp [tabWalkFrom, specTabWalkFrom]
  | cons g gs ih =>
      intro w
      rw [tabWalkFrom, specTabWalkFrom, List.sum_cons, ih]
      omega

theorem specTabWalkFrom_mod (O : GraphemeOracle) (ts base : Nat) (h : base % ts = 0)
    (gs : List (List Nat)) :
    ∀ w, specTabWalkFrom O ts base gs w = specTabWalkFrom O ts 0 gs w := by
  obtain ⟨k, hk⟩ := Nat.dvd_of_mod_eq_zero h
  induction gs with
  | nil => intro w; rfl
  | cons g gs ih =>
      intro w
      have hmod : (w + base) % ts = (w + 0) % ts := by
        rw [hk, Nat.add_zero, Nat.add_mul_mod_self_left]
      rw [specTabWalkFrom, specTabWalkFrom, hmod, ih]

theorem redrawLoop_trace (O : GraphemeOracle) (ts maxw : Nat) (gs : List (List Nat)) :
    ∀ w, ∃ t, specTabWalkFrom O ts 0 gs w = (redrawLoop O ts maxw gs w).2.1 ++ t := by
  induction gs with
  | nil => intro w; exact ⟨[], by simp [specTabWalkFrom, redrawLoop]⟩
  | cons g gs ih =>
      intro w
      rw [specTabWalkFrom]
      simp only [redrawLoop, Nat.add_zero]
      by_cases hc : maxw + 1 < w + (if g = [9] then ts - (w % ts) else O.w g)
      · rw [if_pos hc]
        exact ⟨_, rfl⟩
      · rw [if_neg hc]
        obtain ⟨t, ht⟩ := ih (w + (if g = [9] then ts - (w % ts) else O.w g))
        refine ⟨t, ?_⟩
        simp only [List.cons_append]
        rw [ht]

/-- C8 counterexample: on the line `"ab\tc"` with `tabstop = 4` and `lofs = 2`
(prefix width 2, so `base = 2`), the cursor-column computation expands the tab
to `4 - ((0 + 2) % 4) = 2` cells (total width 3), but the rendered row of
`redrawline` expands the same tab to `4 - (0 % 4) = 4` cells: the rendered row
does NOT use the base, contradicting the claim that the same base is used for
both. -/
theorem tab_base_render_cex :
    graphemeWidthLofsToLidx asciiOracle 4 [97, 98, 9, 99] 2 4 = 3 ∧
    specTabWalkFrom asciiOracle 4 (asciiOracle.w ([97, 98, 9, 99].take 2) % 4)
        (graphemeSegs asciiOracle (sliceBytes [97, 98, 9, 99] 2 4)) 0 = [2, 1] ∧
    (redrawLoop asciiOracle 4 78
        (graphemeSegs asciiOracle (sliceBytes [97, 98, 9, 99] 2 4)) 0).2.1 = [4, 1] ∧
    ([4, 1] : List Nat) ≠ [2, 1] := by
  refine ⟨by decide, by decide, by decide, by decide⟩

/-- C8 amended: the cursor-column computation does expand tabs by the spec
formula with `base = width(line[..lofs]) % tabstop` (first conjunct), but the
rendered row of `redrawline` follows the spec formula with base 0 — its
(truncated) width trace is a prefix of the base-0 spec walk (second conjunct);
the two walks agree exactly when the base is a multiple of the tabstop, e.g.
when `lofs = 0` (third conjunct). -/
theorem tab_base_amended (O : GraphemeOracle) (ts : Nat) (line : List Nat)
    (lofs lidx maxw w base : Nat) (gs : List (List Nat))
    (htab : (sliceBytes line lofs lidx).contains 9 = true)
    (hbase : base % ts = 0) :
    graphemeWidthLofsToLidx O ts line lofs lidx
      = (specTabWalkFrom O ts (O.w (line.take lofs) % ts)
          (graphemeSegs O (sliceBytes line lofs lidx)) 0).sum ∧
    (∃ t, specTabWalkFrom O ts 0 gs w = (redrawLoop O ts maxw gs w).2.1 ++ t) ∧
    specTabWalkFrom O ts base gs w = specTabWalkFrom O ts 0 gs w := by
  refine ⟨?_, redrawLoop_trace O ts maxw gs w, specTabWalkFrom_mod O ts base hbase gs w⟩
  rw [graphemeWidthLofsToLidx, if_pos htab, tabWalkFrom_eq_sum]
  omega

/-- Witness for `tab_base_amended` at the concrete counterexample input. -/
theorem tab_base_amended_witness :
    ((sliceBytes [97, 98, 9, 99] 2 4).contains 9 = true) ∧
    ((4 : Nat) % 4 = 0) ∧
    (graphemeWidthLofsToLidx asciiOracle 4 [97, 98, 9, 99] 2 4
      = (specTabWalkFrom asciiOracle 4 (asciiOracle.w ([97, 98, 9, 99].take 2) % 4)
          (graphemeSegs asciiOracle (sliceBytes [97, 98, 9, 99] 2 4)) 0).sum ∧
     (∃ t, specTabWalkFrom asciiOracle 4 0 [[9], [99]] 0
        = (redrawLoop asciiOracle 4 78 [[9], [99]] 0).2.1 ++ t) ∧
     specTabWalkFrom asciiOracle 4 4 [[9], [99]] 0
        = specTabWalkFrom asciiOracle 4 0 [[9], [99]] 0) :=
  ⟨by decide, by decide,
    tab_base_amended asciiOracle 4 [97, 98, 9, 99] 2 4 78 0 4 [[9], [99]] (by decide) (by decide)⟩


/-! ## Split-join round trip (claim C6) -/

theorem moveDown_true_proj (O : GraphemeOracle) (st : EditorState)
    (h : ¬(st.lineidx + 1 = st.lines.length ∧ st.scrollstart + 1 = st.lines.length)) :
    (moveDown O st 1 true).lines = st.lines ∧
    (moveDown O st 1 true).lineidx = min (st.lineidx + 1) (st.lines.length - 1) ∧
    (moveDown O st 1 true).lidx = 0 := by
  refine ⟨?_, ?_, ?_⟩ <;> simp [moveDown, h]

theorem moveUp_false_proj (O : GraphemeOracle) (st : EditorState) (num : Nat)
    (h : ¬(st.lineidx = 0 ∧ st.scrollstart = 0)) :
    (moveUp O st num false).lines = st.lines ∧
    (moveUp O st num false).lineidx = st.lineidx - num ∧
    (moveUp O st num false).lidx
      = graphemeIdxAt O (st.lines.getD (st.lineidx - num) []) st.lidx := by
  refine ⟨?_, ?_, ?_⟩ <;> simp [moveUp, h, setpos_lines, setpos_lineidx, setpos_lidx, curLine]

theorem backspace_join_eq (O : GraphemeOracle) (st : EditorState)
    (h0 : st.lidx = 0) (hne : ¬ st.lineidx = 0) :
    backspaceKey O st
      = setpos O (moveUp O
          { st with lidx := (st.lines.getD (st.lineidx - 1) []).length,
                    lines := listRemoveAt st.lineidx
                      (st.lines.set (st.lineidx - 1)
                        ((st.lines.getD (st.lineidx - 1) []) ++ (st.lines.getD st.lineidx []))) }
          1 false) := by
  rw [backspaceKey, if_pos h0, if_neg hne]

/-- C6: from any state satisfying the cursor invariants (`lineidx` in range,
`byteidx` a grapheme boundary of the active line — in particular at most its
length), pressing Enter (split at cursor) and then Backspace at the start of
the newly created line restores the prior `lines`, `lineidx` and `byteidx`. -/
theorem split_join_restores (O : GraphemeOracle) (st : EditorState)
    (h1 : st.lineidx < st.lines.length)
    (h2 : st.lidx ≤ (st.lines.getD st.lineidx []).length)
    (h3 : O.bnd (st.lines.getD st.lineidx []) st.lidx = true) :
    (backspaceKey O (enterKey O st)).lines = st.lines ∧
    (backspaceKey O (enterKey O st)).lineidx = st.lineidx ∧
    (backspaceKey O (enterKey O st)).lidx = st.lidx := by
  set line := st.lines.getD st.lineidx [] with hline
  obtain ⟨L, R, hsplit, hlen⟩ :
      ∃ L R, st.lines = L ++ line :: R ∧ L.length = st.lineidx := by
    refine ⟨st.lines.take st.lineidx, st.lines.drop (st.lineidx + 1), ?_, ?_⟩
    · conv_lhs => rw [← List.take_append_drop st.lineidx st.lines]
      congr 1
      rw [hline, List.getD_eq_getElem _ _ h1]
      exact List.drop_eq_getElem_cons h1
    · simp [List.length_take]
      omega
  have hclamp : ¬ (lineLen st < st.lidx) := by
    simp only [lineLen, curLine, ← hline]
    omega
  -- Enter
  have hE1 : enterKey O st
      = moveDown O { st with lines := L ++ (line.take st.lidx) :: (line.drop st.lidx) :: R }
          1 true := by
    simp only [enterKey, if_neg hclamp]
    have e1 : listInsertAt (st.lineidx + 1) ((curLine st).drop st.lidx) st.lines
        = L ++ line :: (line.drop st.lidx) :: R := by
      rw [curLine, ← hline, hsplit, ← hlen, insertAt_mid]
    rw [e1]
    have e2 : (L ++ line :: (line.drop st.lidx) :: R).getD st.lineidx [] = line := by
      rw [← hlen]
      exact getD_mid L line _ []
    rw [e2]
    have e3 : (L ++ line :: (line.drop st.lidx) :: R).set st.lineidx (line.take st.lidx)
        = L ++ (line.take st.lidx) :: (line.drop st.lidx) :: R := by
      rw [← hlen]
      exact set_mid L line _ _
    rw [e3]
  rw [hE1]
  set stM : EditorState :=
    { st with lines := L ++ (line.take st.lidx) :: (line.drop st.lidx) :: R } with hstM
  have hcond : ¬ (stM.lineidx + 1 = stM.lines.length ∧ stM.scrollstart + 1 = stM.lines.length) := by
    simp only [hstM, List.length_append, List.length_cons]
    omega
  have hMD := moveDown_true_proj O stM hcond
  set stE := moveDown O stM 1 true with hstE
  have hElines : stE.lines = L ++ (line.take st.lidx) :: (line.drop st.lidx) :: R := by
    rw [hMD.1, hstM]
  have hEidx : stE.lineidx = st.lineidx + 1 := by
    rw [hMD.2.1, hstM]
    simp only [List.length_append, List.length_cons]
    omega
  have hElidx : stE.lidx = 0 := hMD.2.2
  -- Backspace
  rw [backspace_join_eq O stE hElidx (by omega)]
  have hPrev : (stE.lines.getD (stE.lineidx - 1) []).length = st.lidx := by
    rw [hElines, hEidx, Nat.add_sub_cancel, ← hlen, getD_mid]
    simp [List.length_take]
    omega
  have hLines2 : listRemoveAt stE.lineidx
      (stE.lines.set (stE.lineidx - 1)
        ((stE.lines.getD (stE.lineidx - 1) []) ++ (stE.lines.getD stE.lineidx []))) = st.lines := by
    rw [hElines, hEidx, Nat.add_sub_cancel, ← hlen, getD_mid, getD_mid2, set_mid,
      List.take_append_drop, removeAt_mid, ← hsplit]
  rw [hPrev, hLines2]
  set st1 : EditorState := { stE with lidx := st.lidx, lines := st.lines } with hst1
  have hne1 : ¬ (st1.lineidx = 0 ∧ st1.scrollstart = 0) := by
    simp [hst1, hEidx]
  have hMU := moveUp_false_proj O st1 1 hne1
  have hU_lineidx : (moveUp O st1 1 false).lineidx = st.lineidx := by
    rw [hMU.2.1]
    simp [hst1, hEidx]
  have hU_lines : (moveUp O st1 1 false).lines = st.lines := by
    rw [hMU.1]
  have hgetD : st.lines.getD st.lineidx [] = line := hline.symm
  have hU_lidx : (moveUp O st1 1 false).lidx = st.lidx := by
    rw [hMU.2.2]
    have e1 : st1.lines = st.lines := rfl
    have e2 : st1.lineidx - 1 = st.lineidx := by
      have e3 : st1.lineidx = stE.lineidx := rfl
      rw [e3, hEidx]
      omega
    have e4 : st1.lidx = st.lidx := rfl
    rw [e1, e2, e4, hgetD]
    exact graphemeIdxAt_of_bnd O line st.lidx h3
  refine ⟨?_, ?_, ?_⟩
  · rw [setpos_lines, hU_lines]
  · rw [setpos_lineidx, hU_lineidx]
  · rw [setpos_lidx, curLine, hU_lines, hU_lineidx, hU_lidx, hgetD]
    exact graphemeIdxAt_of_bnd O line st.lidx h3

/-- Witness for `split_join_restores`: the line `"hi"` with the cursor between
the two bytes. -/
theorem split_join_restores_witness :
    (({ baseState with lines := [[104, 105]], lidx := 1 } : EditorState).lineidx
        < ({ baseState with lines := [[104, 105]], lidx := 1 } : EditorState).lines.length) ∧
    (({ baseState with lines := [[104, 105]], lidx := 1 } : EditorState).lidx
        ≤ (({ baseState with lines := [[104, 105]], lidx := 1 } : EditorState).lines.getD
            ({ baseState with lines := [[104, 105]], lidx := 1 } : EditorState).lineidx []).length) ∧
    (asciiOracle.bnd (({ baseState with lines := [[104, 105]], lidx := 1 } : EditorState).lines.getD
          ({ baseState with lines := [[104, 105]], lidx := 1 } : EditorState).lineidx [])
        ({ baseState with lines := [[104, 105]], lidx := 1 } : EditorState).lidx = true) ∧
    ((backspaceKey asciiOracle (enterKey asciiOracle
          { baseState with lines := [[104, 105]], lidx := 1 })).lines
        = ({ baseState with lines := [[104, 105]], lidx := 1 } : EditorState).lines ∧
     (backspaceKey asciiOracle (enterKey asciiOracle
          { baseState with lines := [[104, 105]], lidx := 1 })).lineidx
        = ({ baseState with lines := [[104, 105]], lidx := 1 } : EditorState).lineidx ∧
     (backspaceKey asciiOracle (enterKey asciiOracle
          { baseState with lines := [[104, 105]], lidx := 1 })).lidx
        = ({ baseState with lines := [[104, 105]], lidx := 1 } : EditorState).lidx) :=
  ⟨by decide, by decide, by decide,
    split_join_restores asciiOracle { baseState with lines := [[104, 105]], lidx := 1 }
      (by decide) (by decide) (by decide)⟩
